import Mathlib

/-!
Verification of the data normalization and aggregation engine of the
fiscal-visuals repository (TypeScript).  Machine numbers are modelled as
exact rationals, JS strings as Lean strings (lists of characters), and the
insertion-ordered JS object `Record<string, number>` as an association list
in insertion order.  `Array.prototype.sort` is observably a stable sort by
the comparator, and is modelled by `List.insertionSort` (stable).
-/

namespace FiscalVisuals

/-! ### Decimal digits and number-to-string (models JS ToString on integers) -/

/-- Fuel-driven worker computing the base-10 digits of a natural number,
most significant first, onto an accumulator.  The fuel is an upper bound on
the number of division steps; `digits` always supplies enough. -/
def digitsGo : Nat → Nat → List Nat → List Nat
  | 0, n, acc => n % 10 :: acc
  | f + 1, n, acc => if n < 10 then n :: acc else digitsGo f (n / 10) (n % 10 :: acc)

/-- Base-10 digits of a natural number, most significant first. -/
def digits (n : Nat) : List Nat := digitsGo n n []

theorem digitsGo_acc (f : Nat) : ∀ n acc, digitsGo f n acc = digitsGo f n [] ++ acc := by
  induction f with
  | zero => intro n acc; simp [digitsGo]
  | succ f ih =>
    intro n acc
    by_cases h : n < 10
    · simp [digitsGo, h]
    · simp only [digitsGo, h, if_false]
      rw [ih (n / 10) (n % 10 :: acc), ih (n / 10) [n % 10], List.append_assoc]
      simp

theorem digitsGo_fuel (f g n : Nat) (acc : List Nat) (hf : n ≤ f) (hg : n ≤ g) :
    digitsGo f n acc = digitsGo g n acc := by
  induction f generalizing g n acc with
  | zero =>
    interval_cases n
    cases g with
    | zero => rfl
    | succ g => simp [digitsGo]
  | succ f ih =>
    by_cases h : n < 10
    · cases g with
      | zero =>
        have : n = 0 := Nat.le_zero.mp hg
        subst this
        simp [digitsGo]
      | succ g => simp [digitsGo, h]
    · cases g with
      | zero => omega
      | succ g =>
        simp only [digitsGo, h, if_false]
        exact ih g (n / 10) (n % 10 :: acc) (by omega) (by omega)

theorem digits_lt10 (n : Nat) (h : n < 10) : digits n = [n] := by
  unfold digits
  cases n with
  | zero => simp [digitsGo]
  | succ m => simp [digitsGo, h]

theorem digits_ge10 (n : Nat) (h : 10 ≤ n) : digits n = digits (n / 10) ++ [n % 10] := by
  unfold digits
  cases n with
  | zero => omega
  | succ m =>
    show digitsGo (m + 1) (m + 1) [] = _
    rw [show digitsGo (m + 1) (m + 1) [] =
        digitsGo m ((m + 1) / 10) ((m + 1) % 10 :: []) by simp [digitsGo]; omega]
    rw [digitsGo_acc]
    congr 1
    exact digitsGo_fuel m ((m + 1) / 10) ((m + 1) / 10) [] (by omega) (le_refl _)

/-- The four decimal digits of a number between 1000 and 9999. -/
theorem digits_four (n : Nat) (h1 : 1000 ≤ n) (h2 : n ≤ 9999) :
    digits n = [n / 1000, n / 100 % 10, n / 10 % 10, n % 10] := by
  rw [digits_ge10 n (by omega), digits_ge10 (n / 10) (by omega),
      digits_ge10 (n / 10 / 10) (by omega), digits_lt10 (n / 10 / 10 / 10) (by omega)]
  have e1 : n / 10 / 10 = n / 100 := by omega
  rw [e1]
  have e2 : n / 100 / 10 = n / 1000 := by omega
  rw [e2]
  simp

/-- A decimal digit rendered as a character. -/
def digitChar (d : Nat) : Char := Char.ofNat (48 + d)

/-- Decimal string of a natural number (models JS number-to-string for
non-negative integers). -/
def natToString (n : Nat) : String := ⟨(digits n).map digitChar⟩

/-- Decimal string of an integer. -/
def intToString (n : Int) : String :=
  (if n < 0 then "-" else "") ++ natToString n.natAbs

/-! ### Lexicographic comparisons (model of JS string `<` on UTF-16 code units) -/

/-- Lexicographic less-or-equal on digit lists; comparing digit lists digit by
digit is equivalent to comparing their decimal strings character by character,
since the character code of a digit is monotone in its value. -/
def lexLeB : List Nat → List Nat → Bool
  | [], _ => true
  | _ :: _, [] => false
  | a :: as, b :: bs => if a < b then true else if b < a then false else lexLeB as bs

theorem lexLeB_total : ∀ xs ys : List Nat, lexLeB xs ys = true ∨ lexLeB ys xs = true := by
  intro xs
  induction xs with
  | nil => intro ys; left; rfl
  | cons a as ih =>
    intro ys
    cases ys with
    | nil => right; rfl
    | cons b bs =>
      rcases Nat.lt_trichotomy a b with h | h | h
      · left; simp [lexLeB, h]
      · subst h
        rcases ih bs with h' | h'
        · left; simp [lexLeB, h']
        · right; simp [lexLeB, h']
      · right; simp [lexLeB, h]

theorem lexLeB_trans : ∀ xs ys zs : List Nat,
    lexLeB xs ys = true → lexLeB ys zs = true → lexLeB xs zs = true := by
  intro xs
  induction xs with
  | nil => intro ys zs _ _; rfl
  | cons a as ih =>
    intro ys zs h1 h2
    cases ys with
    | nil => simp [lexLeB] at h1
    | cons b bs =>
      cases zs with
      | nil => simp [lexLeB] at h2
      | cons c cs =>
        simp only [lexLeB] at h1 h2 ⊢
        split_ifs at h1 h2 ⊢ with hab hba hbc hcb hac hca
        all_goals first
          | rfl
          | omega
          | (exact ih bs cs h1 h2)

/-- Lexicographic less-or-equal on character lists, by code point — the model
of the default JS string comparison used by `Array.prototype.sort()`. -/
def charLexLeB : List Char → List Char → Bool
  | [], _ => true
  | _ :: _, [] => false
  | a :: as, b :: bs =>
    if a.toNat < b.toNat then true else if b.toNat < a.toNat then false else charLexLeB as bs

/-- Default-comparator order on strings used by JS `sort()` on strings. -/
def strLe (a b : String) : Prop := charLexLeB a.data b.data = true

instance : DecidableRel strLe := fun a b =>
  inferInstanceAs (Decidable (charLexLeB a.data b.data = true))

theorem charLexLeB_total : ∀ xs ys : List Char,
    charLexLeB xs ys = true ∨ charLexLeB ys xs = true := by
  intro xs
  induction xs with
  | nil => intro ys; left; rfl
  | cons a as ih =>
    intro ys
    cases ys with
    | nil => right; rfl
    | cons b bs =>
      rcases Nat.lt_trichotomy a.toNat b.toNat with h | h | h
      · left; simp [charLexLeB, h]
      · rcases ih bs with h' | h'
        · left; simp [charLexLeB, h, h']
        · right; simp [charLexLeB, h, h']
      · right; simp [charLexLeB, h]

instance : IsTotal String strLe := ⟨fun a b => charLexLeB_total a.data b.data⟩

theorem charLexLeB_trans : ∀ xs ys zs : List Char,
    charLexLeB xs ys = true → charLexLeB ys zs = true → charLexLeB xs zs = true := by
  intro xs
  induction xs with
  | nil => intro ys zs _ _; rfl
  | cons a as ih =>
    intro ys zs h1 h2
    cases ys with
    | nil => simp [charLexLeB] at h1
    | cons b bs =>
      cases zs with
      | nil => simp [charLexLeB] at h2
      | cons c cs =>
        simp only [charLexLeB] at h1 h2 ⊢
        split_ifs at h1 h2 ⊢ with hab hba hbc hcb hac hca
        all_goals first
          | rfl
          | omega
          | (exact ih bs cs h1 h2)

instance : IsTrans String strLe :=
  ⟨fun a b c h1 h2 => charLexLeB_trans a.data b.data c.data h1 h2⟩

/-- JS `sort()` on an array of numbers converts the elements to strings and
compares them lexicographically; on natural numbers this is the lexicographic
order of their decimal digit lists. -/
def numStrLe (a b : Nat) : Prop := lexLeB (digits a) (digits b) = true

instance : DecidableRel numStrLe := fun a b =>
  inferInstanceAs (Decidable (lexLeB (digits a) (digits b) = true))

instance : IsTotal Nat numStrLe := ⟨fun a b => lexLeB_total (digits a) (digits b)⟩

instance : IsTrans Nat numStrLe :=
  ⟨fun a b c h1 h2 => lexLeB_trans (digits a) (digits b) (digits c) h1 h2⟩

/-- On four-digit numbers, the string order used by the default JS number sort
agrees with the numeric order. -/
theorem numStrLe_iff_le (a b : Nat) (ha1 : 1000 ≤ a) (ha2 : a ≤ 9999)
    (hb1 : 1000 ≤ b) (hb2 : b ≤ 9999) : numStrLe a b ↔ a ≤ b := by
  unfold numStrLe
  rw [digits_four a ha1 ha2, digits_four b hb1 hb2]
  simp only [lexLeB]
  split_ifs <;> simp_all <;> omega

/-! ### Data model (`src/utils/finance/types.ts` / `dataProcessing.ts`) -/

/-- The observable part of a JS `Date`: local calendar year and zero-based
month, which are all the aggregation code reads (`getFullYear`/`getMonth`).
JS `new Date(string)` parsing is implementation-defined and is passed to the
normalizers as an explicit parameter. -/
structure JSDate where
  year : Nat
  month : Nat
deriving DecidableEq, Repr

structure IncomeData where
  Name : String
  Sources : String
  Amount : ℚ
  Date : JSDate
  formattedDate : String
  month : Nat
  year : Nat
deriving DecidableEq, Repr

structure ExpenseData where
  Name : String
  Categories : String
  Amount : ℚ
  Date : JSDate
  Expenses : String
  Notes : String
  formattedDate : String
  month : Nat
  year : Nat
deriving DecidableEq, Repr

/-- A raw income CSV row (fields `Name`, `Sources`, `Amount`, `Date`); an
absent cell is the empty string, which the code treats as falsy exactly like
`undefined`. -/
structure RawIncomeRow where
  Name : String
  Sources : String
  Amount : String
  Date : String
deriving DecidableEq, Repr

/-- A raw expense CSV row (fields `Name`, `Categories`, `Amount`, `Date`,
`Expenses`, `Notes`). -/
structure RawExpenseRow where
  Name : String
  Categories : String
  Amount : String
  Date : String
  Expenses : String
  Notes : String
deriving DecidableEq, Repr

/-! ### JS objects used as maps: insertion-ordered association lists

`grouped[k] = (grouped[k] || 0) + v` updates the value of an existing key in
place and appends a fresh key at the end, which is exactly the enumeration
order of string-keyed JS objects. -/

/-- `grouped[k] = (grouped[k] || 0) + v` on an insertion-ordered object. -/
def updAdd {κ : Type} [DecidableEq κ] : List (κ × ℚ) → κ → ℚ → List (κ × ℚ)
  | [], k, v => [(k, v)]
  | (k', w) :: m, k, v =>
    if k = k' then (k', w + v) :: m else (k', w) :: updAdd m k v

/-- `m[k]`, with JS `undefined || 0` collapsing to `0`. -/
def lookupD {κ : Type} [DecidableEq κ] : List (κ × ℚ) → κ → ℚ
  | [], _ => 0
  | (k', v) :: m, k => if k = k' then v else lookupD m k

/-- `m[k]` as an optional value (present key or not). -/
def objLookup {κ : Type} [DecidableEq κ] : List (κ × ℚ) → κ → Option ℚ
  | [], _ => none
  | (k', v) :: m, k => if k = k' then some v else objLookup m k

/-- `Object.keys` for string-keyed objects: insertion order. -/
def objKeys {κ : Type} (m : List (κ × ℚ)) : List κ := m.map Prod.fst

/-- Sum of all bucket values of an object. -/
def sumVals {κ : Type} (m : List (κ × ℚ)) : ℚ := (m.map Prod.snd).sum

/-- `records.map(f).sum`-style total. -/
def sumBy {α : Type} (f : α → ℚ) (l : List α) : ℚ := (l.map f).sum

theorem lookupD_updAdd {κ : Type} [DecidableEq κ] (m : List (κ × ℚ)) (k k' : κ) (v : ℚ) :
    lookupD (updAdd m k v) k' = lookupD m k' + (if k' = k then v else 0) := by
  induction m with
  | nil =>
    simp only [updAdd, lookupD]
    by_cases h : k' = k <;> simp [h]
  | cons p m ih =>
    obtain ⟨k'', w⟩ := p
    by_cases h1 : k = k''
    · subst h1
      simp only [updAdd, if_pos rfl, lookupD]
      by_cases h2 : k' = k <;> simp [h2, add_comm]
    · simp only [updAdd, if_neg h1, lookupD]
      by_cases h2 : k' = k''
      · subst h2
        have : ¬ k' = k := fun h => h1 h.symm
        simp [this]
      · simp [h2, ih]

theorem objLookup_eq_some_lookupD {κ : Type} [DecidableEq κ] (m : List (κ × ℚ)) (k : κ) (v : ℚ)
    (h : objLookup m k = some v) : lookupD m k = v := by
  induction m with
  | nil => simp [objLookup] at h
  | cons p m ih =>
    obtain ⟨k', w⟩ := p
    by_cases h1 : k = k'
    · simp [objLookup, h1] at h
      simp [lookupD, h1, h]
    · simp [objLookup, h1] at h
      simp [lookupD, h1, ih h]

theorem objLookup_mem_keys {κ : Type} [DecidableEq κ] (m : List (κ × ℚ)) (k : κ) (v : ℚ)
    (h : objLookup m k = some v) : k ∈ objKeys m := by
  induction m with
  | nil => simp [objLookup] at h
  | cons p m ih =>
    obtain ⟨k', w⟩ := p
    by_cases h1 : k = k'
    · simp [objKeys, h1]
    · simp [objLookup, h1] at h
      simp [objKeys] at ih ⊢
      exact Or.inr (ih h)

theorem sumVals_updAdd {κ : Type} [DecidableEq κ] (m : List (κ × ℚ)) (k : κ) (v : ℚ) :
    sumVals (updAdd m k v) = sumVals m + v := by
  induction m with
  | nil => simp [updAdd, sumVals]
  | cons p m ih =>
    obtain ⟨k', w⟩ := p
    by_cases h : k = k'
    · simp [updAdd, h, sumVals]
      ring
    · simp [updAdd, h, sumVals] at ih ⊢
      rw [ih]
      ring

theorem mem_keys_updAdd {κ : Type} [DecidableEq κ] (m : List (κ × ℚ)) (k k' : κ) (v : ℚ) :
    k' ∈ objKeys (updAdd m k v) ↔ k' ∈ objKeys m ∨ k' = k := by
  induction m with
  | nil => simp [updAdd, objKeys, eq_comm]
  | cons p m ih =>
    obtain ⟨k'', w⟩ := p
    by_cases h : k = k''
    · subst h
      simp [updAdd, objKeys]
      tauto
    · simp [updAdd, h, objKeys] at ih ⊢
      tauto

/-- Value of a bucket built by a `reduce` of `updAdd` steps: initial value
plus the sum of the amounts of the records mapping to that key. -/
theorem lookupD_foldl {κ α : Type} [DecidableEq κ] (keyOf : α → κ) (amtOf : α → ℚ) :
    ∀ (l : List α) (g : List (κ × ℚ)) (k : κ),
      lookupD (l.foldl (fun m x => updAdd m (keyOf x) (amtOf x)) g) k =
        lookupD g k + sumBy amtOf (l.filter fun x => decide (keyOf x = k)) := by
  intro l
  induction l with
  | nil => intro g k; simp [sumBy]
  | cons x l ih =>
    intro g k
    simp only [List.foldl_cons]
    rw [ih]
    rw [lookupD_updAdd]
    by_cases h : keyOf x = k
    · simp [List.filter_cons, h, sumBy, eq_comm]
      ring
    · have h' : ¬ k = keyOf x := fun hh => h hh.symm
      simp [List.filter_cons, h, h', sumBy]

/-- A `reduce` of `updAdd` steps conserves the total amount. -/
theorem sumVals_foldl {κ α : Type} [DecidableEq κ] (keyOf : α → κ) (amtOf : α → ℚ) :
    ∀ (l : List α) (g : List (κ × ℚ)),
      sumVals (l.foldl (fun m x => updAdd m (keyOf x) (amtOf x)) g) =
        sumVals g + sumBy amtOf l := by
  intro l
  induction l with
  | nil => intro g; simp [sumBy]
  | cons x l ih =>
    intro g
    simp only [List.foldl_cons]
    rw [ih, sumVals_updAdd]
    simp [sumBy]
    ring

/-- Every key of a grouping built by a `reduce` of `updAdd` steps has at least
one contributing record (and conversely). -/
theorem mem_keys_foldl {κ α : Type} [DecidableEq κ] (keyOf : α → κ) (amtOf : α → ℚ) :
    ∀ (l : List α) (g : List (κ × ℚ)) (k : κ),
      k ∈ objKeys (l.foldl (fun m x => updAdd m (keyOf x) (amtOf x)) g) ↔
        k ∈ objKeys g ∨ ∃ x ∈ l, keyOf x = k := by
  intro l
  induction l with
  | nil => intro g k; simp
  | cons x l ih =>
    intro g k
    simp only [List.foldl_cons]
    rw [ih, mem_keys_updAdd]
    simp only [List.mem_cons]
    constructor
    · rintro (⟨h | h⟩ | ⟨y, hy, hk⟩)
      · exact Or.inl h
      · exact Or.inr ⟨x, Or.inl rfl, h.symm⟩
      · exact Or.inr ⟨y, Or.inr hy, hk⟩
    · rintro (h | ⟨y, hy | hy, hk⟩)
      · exact Or.inl (Or.inl h)
      · subst hy; exact Or.inl (Or.inr hk.symm)
      · exact Or.inr ⟨y, hy, hk⟩

/-! ### JS `Set` (deduplication keeping first occurrences) -/

/-- Spreading a JS `Set` built from a list: keep the first occurrence of each
element, in order. -/
def dedupAux {α : Type} [DecidableEq α] (seen : List α) : List α → List α
  | [] => []
  | x :: xs => if x ∈ seen then dedupAux seen xs else x :: dedupAux (x :: seen) xs

def dedupFirst {α : Type} [DecidableEq α] (l : List α) : List α := dedupAux [] l

theorem mem_dedupAux {α : Type} [DecidableEq α] :
    ∀ (l : List α) (seen : List α) (x : α), x ∈ dedupAux seen l ↔ x ∈ l ∧ x ∉ seen := by
  intro l
  induction l with
  | nil => intro seen x; simp [dedupAux]
  | cons y l ih =>
    intro seen x
    by_cases h : y ∈ seen
    · rw [dedupAux, if_pos h, ih]
      simp only [List.mem_cons]
      constructor
      · rintro ⟨hl, hs⟩; exact ⟨Or.inr hl, hs⟩
      · rintro ⟨hl | hl, hs⟩
        · subst hl; exact absurd h hs
        · exact ⟨hl, hs⟩
    · rw [dedupAux, if_neg h]
      simp only [List.mem_cons, ih]
      constructor
      · rintro (hx | ⟨hl, hs⟩)
        · subst hx; exact ⟨Or.inl rfl, h⟩
        · exact ⟨Or.inr hl, fun hx => hs (Or.inr hx)⟩
      · rintro ⟨hx | hl, hs⟩
        · exact Or.inl hx
        · by_cases hxy : x = y
          · exact Or.inl hxy
          · refine Or.inr ⟨hl, ?_⟩
            rintro (hx | hx)
            · exact hxy hx
            · exact hs hx

theorem mem_dedupFirst {α : Type} [DecidableEq α] (l : List α) (x : α) :
    x ∈ dedupFirst l ↔ x ∈ l := by
  rw [dedupFirst, mem_dedupAux]
  simp

theorem nodup_dedupAux {α : Type} [DecidableEq α] :
    ∀ (l : List α) (seen : List α), (dedupAux seen l).Nodup := by
  intro l
  induction l with
  | nil => intro seen; simp [dedupAux]
  | cons y l ih =>
    intro seen
    by_cases h : y ∈ seen
    · rw [dedupAux, if_pos h]; exact ih seen
    · rw [dedupAux, if_neg h]
      refine List.nodup_cons.mpr ⟨?_, ih (y :: seen)⟩
      rw [mem_dedupAux]
      simp

theorem nodup_dedupFirst {α : Type} [DecidableEq α] (l : List α) : (dedupFirst l).Nodup :=
  nodup_dedupAux l []

/-! ### JS whitespace and `String.prototype.trim` -/

/-- ECMAScript WhiteSpace and LineTerminator characters (`\s`, `trim`). -/
def jsWhitespace (c : Char) : Bool :=
  c.toNat = 0x09 ∨ c.toNat = 0x0A ∨ c.toNat = 0x0B ∨ c.toNat = 0x0C ∨
  c.toNat = 0x0D ∨ c.toNat = 0x20 ∨ c.toNat = 0xA0 ∨ c.toNat = 0x1680 ∨
  (0x2000 ≤ c.toNat ∧ c.toNat ≤ 0x200A) ∨ c.toNat = 0x2028 ∨ c.toNat = 0x2029 ∨
  c.toNat = 0x202F ∨ c.toNat = 0x205F ∨ c.toNat = 0x3000 ∨ c.toNat = 0xFEFF

/-- ECMAScript LineTerminator characters (which `.` does not match). -/
def jsLineTerm (c : Char) : Bool :=
  c.toNat = 0x0A ∨ c.toNat = 0x0D ∨ c.toNat = 0x2028 ∨ c.toNat = 0x2029

/-- `trim()` on the character list: strip leading and trailing whitespace. -/
def trimChars (l : List Char) : List Char :=
  ((l.dropWhile jsWhitespace).reverse.dropWhile jsWhitespace).reverse

/-- JS `String.prototype.trim`. -/
def trimS (s : String) : String := ⟨trimChars s.data⟩

theorem dropWhile_jsWs_idem (l : List Char) :
    (l.dropWhile jsWhitespace).dropWhile jsWhitespace = l.dropWhile jsWhitespace := by
  induction l with
  | nil => rfl
  | cons c l ih =>
    by_cases h : jsWhitespace c
    · simp [List.dropWhile, h, ih]
    · simp [List.dropWhile, h]

theorem dropWhile_head_not {p : Char → Bool} :
    ∀ (l : List Char) (a : Char) (as : List Char), l.dropWhile p = a :: as → p a = false := by
  intro l
  induction l with
  | nil => intro a as h; simp [List.dropWhile] at h
  | cons c l ih =>
    intro a as h
    by_cases hc : p c
    · rw [List.dropWhile_cons_of_pos hc] at h
      exact ih a as h
    · rw [List.dropWhile_cons_of_neg hc] at h
      cases h
      simpa using hc

theorem trimChars_idem (l : List Char) : trimChars (trimChars l) = trimChars l := by
  unfold trimChars
  set d := l.dropWhile jsWhitespace with hd
  set t := (d.reverse.dropWhile jsWhitespace).reverse with ht
  have hfront : t.dropWhile jsWhitespace = t := by
    cases hcase : t with
    | nil => rfl
    | cons a as =>
      have hpref : t <+: d := by
        rw [ht]
        conv_rhs => rw [← List.reverse_reverse d]
        rw [List.reverse_prefix]
        exact List.dropWhile_suffix jsWhitespace
      have hd_cons : ∃ r, d = a :: r := by
        rcases hpref with ⟨u, hu⟩
        rw [hcase] at hu
        exact ⟨as ++ u, by simpa using hu.symm⟩
      rcases hd_cons with ⟨r, hr⟩
      have ha : jsWhitespace a = false := by
        apply dropWhile_head_not l a r
        rw [← hd, hr]
      rw [List.dropWhile_cons_of_neg (by simp [ha])]
  rw [hfront, ht]
  rw [List.reverse_reverse, dropWhile_jsWs_idem]

theorem mem_trimChars {l : List Char} {c : Char} (h : c ∈ trimChars l) : c ∈ l := by
  unfold trimChars at h
  rw [List.mem_reverse] at h
  have h1 := (List.dropWhile_sublist jsWhitespace (l := (l.dropWhile jsWhitespace).reverse)).mem h
  rw [List.mem_reverse] at h1
  exact (List.dropWhile_sublist jsWhitespace (l := l)).mem h1

/-! ### The two regex replacements of `cleanMarkdownLinks`

`text.replace(/\[([^\]]+)\]\([^)]+\)/g, '$1')` and
`text.replace(/(.+?)\s*\([^)]*%[^)]*\)/g, '$1')`, implemented directly: the
character classes cannot cross their closing delimiter, so each pattern has a
deterministic leftmost match. -/

/-- Try to match `([^\]]+)\]\([^)]+\)` (the part of the markdown-link pattern
after the opening `[`); on success return the captured label and the rest of
the input after the match. -/
def tryM1 (rest : List Char) : Option (List Char × List Char) :=
  let label := rest.takeWhile (fun c => ¬ c = ']')
  if label.isEmpty then none
  else
    match rest.drop label.length with
    | ']' :: '(' :: r2 =>
      let url := r2.takeWhile (fun c => ¬ c = ')')
      if url.isEmpty then none
      else
        match r2.drop url.length with
        | ')' :: rem => some (label, rem)
        | _ => none
    | _ => none

/-- Global replacement of `\[([^\]]+)\]\([^)]+\)` by the captured label,
scanning left to right.  The fuel (initially the input length) bounds the
number of scan steps; every step consumes at least one character. -/
def replace1Go : Nat → List Char → List Char
  | 0, l => l
  | _ + 1, [] => []
  | f + 1, c :: rest =>
    if c = '[' then
      match tryM1 rest with
      | some (label, rem) => label ++ replace1Go f rem
      | none => c :: replace1Go f rest
    else c :: replace1Go f rest

def replace1 (l : List Char) : List Char := replace1Go l.length l

/-- Try to match `\s*\([^)]*%[^)]*\)` at the given position (the tail after
the lazily-matched group); return the rest after the closing `)`.  The
whitespace run must be followed by `(`, and the run of non-`)` characters
inside the parentheses must contain a `%`. -/
def m2Tail (t : List Char) : Option (List Char) :=
  match t.dropWhile jsWhitespace with
  | '(' :: r =>
    match (r.takeWhile (fun c => ¬ c = ')')).any (fun c => c = '%'),
        r.drop (r.takeWhile (fun c => ¬ c = ')')).length with
    | true, ')' :: rem => some rem
    | _, _ => none
  | _ => none

/-- Lazy group growth for `(.+?)\s*\([^)]*%[^)]*\)` at a fixed start: extend
the group one (non-line-terminator) character at a time, trying the tail
match after each extension; the first success wins.  Returns the captured
group and the rest after the whole match. -/
def tryS2Go : Nat → List Char → List Char → Option (List Char × List Char)
  | 0, _, _ => none
  | _ + 1, _, [] => none
  | f + 1, acc, c :: rest =>
    if jsLineTerm c then none
    else
      match m2Tail rest with
      | some rem => some (acc ++ [c], rem)
      | none => tryS2Go f (acc ++ [c]) rest

def tryS2 (t : List Char) : Option (List Char × List Char) := tryS2Go t.length [] t

/-- Global replacement of `(.+?)\s*\([^)]*%[^)]*\)` by the captured group. -/
def replace2Go : Nat → List Char → List Char
  | 0, l => l
  | _ + 1, [] => []
  | f + 1, c :: rest =>
    match tryS2 (c :: rest) with
    | some (grp, rem) => grp ++ replace2Go f rem
    | none => c :: replace2Go f rest

def replace2 (l : List Char) : List Char := replace2Go l.length l

theorem replace1Go_no_bracket (f : Nat) :
    ∀ l : List Char, '[' ∉ l → replace1Go f l = l := by
  induction f with
  | zero => intro l _; rfl
  | succ f ih =>
    intro l hl
    cases l with
    | nil => rfl
    | cons c rest =>
      have hc : ¬ c = '[' := fun h => hl (by simp [h])
      have hrest : '[' ∉ rest := fun h => hl (List.mem_cons_of_mem c h)
      simp only [replace1Go, if_neg hc]
      rw [ih rest hrest]

theorem replace1_no_bracket (l : List Char) (hl : '[' ∉ l) : replace1 l = l :=
  replace1Go_no_bracket l.length l hl

theorem m2Tail_no_percent (t : List Char) (ht : '%' ∉ t) : m2Tail t = none := by
  unfold m2Tail
  split
  · rename_i r heq
    split
    · rename_i rem han hdrop
      exfalso
      obtain ⟨x, hx, hxp⟩ := List.any_eq_true.mp han
      have hxr : x ∈ r := (List.takeWhile_sublist _).mem hx
      have hx37 : x = '%' := by simpa using hxp
      apply ht
      have : '%' ∈ t.dropWhile jsWhitespace := by
        rw [heq]
        exact List.mem_cons_of_mem _ (hx37 ▸ hxr)
      exact (List.dropWhile_sublist jsWhitespace).mem this
    · rfl
  · rfl

theorem tryS2Go_no_percent (f : Nat) :
    ∀ (acc t : List Char), '%' ∉ t → tryS2Go f acc t = none := by
  induction f with
  | zero => intro acc t _; rfl
  | succ f ih =>
    intro acc t ht
    cases t with
    | nil => rfl
    | cons c rest =>
      have hrest : '%' ∉ rest := fun h => ht (List.mem_cons_of_mem c h)
      simp only [tryS2Go]
      rw [m2Tail_no_percent rest hrest]
      by_cases hlt : jsLineTerm c
      · simp [hlt]
      · simp [hlt, ih (acc ++ [c]) rest hrest]

theorem replace2Go_no_percent (f : Nat) :
    ∀ l : List Char, '%' ∉ l → replace2Go f l = l := by
  induction f with
  | zero => intro l _; rfl
  | succ f ih =>
    intro l hl
    cases l with
    | nil => rfl
    | cons c rest =>
      have hrest : '%' ∉ rest := fun h => hl (List.mem_cons_of_mem c h)
      simp only [replace2Go]
      rw [show tryS2 (c :: rest) = none from tryS2Go_no_percent _ _ _ hl]
      rw [ih rest hrest]

theorem replace2_no_percent (l : List Char) (hl : '%' ∉ l) : replace2 l = l :=
  replace2Go_no_percent l.length l hl

/-! ### JS `parseFloat`

Longest valid decimal-literal prefix after skipping leading whitespace:
optional sign, digits with optional fraction, optional exponent.  `none`
models `NaN`.  Values are exact rationals (binary-double rounding does not
affect sign or zeroness, which is all the claims depend on); the `Infinity`
literal production is not modelled. -/

def isDigitC (c : Char) : Bool := 48 ≤ c.toNat ∧ c.toNat ≤ 57

def digitsValQ (l : List Char) : ℚ :=
  l.foldl (fun a c => 10 * a + ((c.toNat : ℚ) - 48)) 0

def digitsValN (l : List Char) : Nat :=
  l.foldl (fun a c => 10 * a + (c.toNat - 48)) 0

def fracValQ (l : List Char) : ℚ :=
  l.foldr (fun c acc => (((c.toNat : ℚ) - 48) + acc) / 10) 0

def jsParseFloat (s : String) : Option ℚ :=
  let t := s.data.dropWhile jsWhitespace
  let sign : ℚ × List Char :=
    match t with
    | '-' :: r => (-1, r)
    | '+' :: r => (1, r)
    | _ => (1, t)
  let t1 := sign.2
  let intD := t1.takeWhile isDigitC
  let t2 := t1.drop intD.length
  let fr : List Char × List Char :=
    match t2 with
    | '.' :: r => (r.takeWhile isDigitC, r.drop (r.takeWhile isDigitC).length)
    | _ => ([], t2)
  let fracD := fr.1
  let t3 := fr.2
  if intD.isEmpty && fracD.isEmpty then none
  else
    let mant : ℚ := sign.1 * (digitsValQ intD + fracValQ fracD)
    match t3 with
    | c :: r =>
      if c = 'e' ∨ c = 'E' then
        let es : Int × List Char :=
          match r with
          | '-' :: rr => (-1, rr)
          | '+' :: rr => (1, rr)
          | _ => (1, r)
        let eD := es.2.takeWhile isDigitC
        if eD.isEmpty then some mant
        else some (mant * (10 : ℚ) ^ (es.1 * (digitsValN eD : Int)))
      else some mant
    | [] => some mant

namespace DataProcessing

/-! `src/utils/dataProcessing.ts` -/

/-- `cleanMarkdownLinks` of `dataProcessing.ts`: one markdown-link regex
replacement followed by `trim()`; falsy (empty) input returns `''`. -/
def cleanMarkdownLinks (text : String) : String :=
  if text = "" then "" else trimS ⟨replace1 text.data⟩

/-- The character class `[₹$€£¥,]` removed by `parseCurrency`. -/
def currencySymbols : List Char := ['₹', '$', '€', '£', '¥', ',']

/-- `amountStr.replace(/[₹$€£¥,]/g, '').trim()`. -/
def stripAmount (amountStr : String) : String :=
  trimS ⟨amountStr.data.filter (fun c => ¬ c ∈ currencySymbols)⟩

/-- `parseCurrency`: falsy input → 0; otherwise strip symbols and commas,
`parseFloat(...) || 0` (`NaN` collapses to 0; a parsed 0 is falsy but `|| 0`
substitutes the same value). -/
def parseCurrency (amountStr : String) : ℚ :=
  if amountStr = "" then 0
  else
    match jsParseFloat (stripAmount amountStr) with
    | none => 0
    | some v => v

/-- The per-row body of `processIncomeData`.  `pd` is the
implementation-defined `parseDate` (JS `new Date(string)` with current-time
fallback) and `fd` is the locale-dependent `toLocaleDateString`. -/
def normalizeIncomeRow (pd : String → JSDate) (fd : JSDate → String)
    (row : RawIncomeRow) : IncomeData :=
  let date := pd row.Date
  { Name := if row.Name = "" then "Unknown" else row.Name
    Sources := cleanMarkdownLinks row.Sources
    Amount := parseCurrency row.Amount
    Date := date
    formattedDate := fd date
    month := date.month
    year := date.year }

/-- `processIncomeData`: `csvData.map(row => ...)`. -/
def processIncomeData (pd : String → JSDate) (fd : JSDate → String)
    (csvData : List RawIncomeRow) : List IncomeData :=
  csvData.map (normalizeIncomeRow pd fd)

/-- The per-row body of `processExpenseData`. -/
def normalizeExpenseRow (pd : String → JSDate) (fd : JSDate → String)
    (row : RawExpenseRow) : ExpenseData :=
  let date := pd row.Date
  { Name := if row.Name = "" then "Unknown" else row.Name
    Categories := cleanMarkdownLinks row.Categories
    Amount := parseCurrency row.Amount
    Date := date
    Expenses := if row.Expenses = "" then "" else row.Expenses
    Notes := if row.Notes = "" then "" else row.Notes
    formattedDate := fd date
    month := date.month
    year := date.year }

/-- `processExpenseData`: `csvData.map(row => ...)`. -/
def processExpenseData (pd : String → JSDate) (fd : JSDate → String)
    (csvData : List RawExpenseRow) : List ExpenseData :=
  csvData.map (normalizeExpenseRow pd fd)

end DataProcessing

namespace FinanceHelpers

/-! `src/utils/finance/helpers.ts` -/

/-- `cleanMarkdownLinks` of `finance/helpers.ts`: the markdown-link
replacement and `trim()`, then the trailing parenthetical-with-`%`
replacement and `trim()` again. -/
def cleanMarkdownLinks (text : String) : String :=
  if text = "" then ""
  else
    let cleaned := trimS ⟨replace1 text.data⟩
    trimS ⟨replace2 cleaned.data⟩

end FinanceHelpers

namespace Finance

/-! `src/utils/finance/calculators.ts` -/

/-- `calculateTotalIncome`: `incomeData.reduce((total, item) => total + item.Amount, 0)`. -/
def calculateTotalIncome (incomeData : List IncomeData) : ℚ :=
  incomeData.foldl (fun total item => total + item.Amount) 0

/-- `calculateTotalExpenses`. -/
def calculateTotalExpenses (expenseData : List ExpenseData) : ℚ :=
  expenseData.foldl (fun total item => total + item.Amount) 0

/-- `calculateNetSavings`. -/
def calculateNetSavings (incomeTotal expenseTotal : ℚ) : ℚ :=
  incomeTotal - expenseTotal

/-- `groupExpensesByCategory`: `item.Categories || 'Uncategorized'` buckets
the empty category under the fallback key. -/
def groupExpensesByCategory (expenseData : List ExpenseData) : List (String × ℚ) :=
  expenseData.foldl
    (fun grouped item =>
      updAdd grouped (if item.Categories = "" then "Uncategorized" else item.Categories)
        item.Amount)
    []

/-- `groupIncomeBySource`. -/
def groupIncomeBySource (incomeData : List IncomeData) : List (String × ℚ) :=
  incomeData.foldl
    (fun grouped item =>
      updAdd grouped (if item.Sources = "" then "Uncategorized" else item.Sources)
        item.Amount)
    []

/-- Elements of the TS union type `(IncomeData | ExpenseData)[]`. -/
def dateOf : IncomeData ⊕ ExpenseData → JSDate :=
  Sum.elim (fun i => i.Date) (fun e => e.Date)

def amountOf : IncomeData ⊕ ExpenseData → ℚ :=
  Sum.elim (fun i => i.Amount) (fun e => e.Amount)

/-- The template literal `` `${date.getFullYear()}-${date.getMonth() + 1}` ``. -/
def monthYearKey (d : JSDate) : String :=
  natToString d.year ++ "-" ++ natToString (d.month + 1)

/-- `groupByMonth`. -/
def groupByMonth (data : List (IncomeData ⊕ ExpenseData)) : List (String × ℚ) :=
  data.foldl (fun grouped item => updAdd grouped (monthYearKey (dateOf item)) (amountOf item)) []

/-! `src/utils/finance/filters.ts` -/

/-- `filterExpensesByCategory`: exact `===` match on `Categories`. -/
def filterExpensesByCategory (expenseData : List ExpenseData) (category : String) :
    List ExpenseData :=
  expenseData.filter (fun item => decide (item.Categories = category))

/-- `filterIncomeBySource`. -/
def filterIncomeBySource (incomeData : List IncomeData) (source : String) :
    List IncomeData :=
  incomeData.filter (fun item => decide (item.Sources = source))

/-- `value.toLowerCase()` (case mapping modelled by `Char.toLower`). -/
def jsToLower (s : String) : String := ⟨s.data.map Char.toLower⟩

def isPrefB : List Char → List Char → Bool
  | [], _ => true
  | _ :: _, [] => false
  | a :: as, b :: bs => a == b && isPrefB as bs

def isInfB : List Char → List Char → Bool
  | sub, [] => isPrefB sub []
  | sub, c :: rest => isPrefB sub (c :: rest) || isInfB sub rest

/-- `big.includes(small)`. -/
def strIncludes (big small : String) : Bool := isInfB small.data big.data

/-- The `for (const key in item)` loop of `searchData` visits the record's
fields in insertion order and tests every string-typed one. -/
def recordMatches (item : IncomeData ⊕ ExpenseData) (lowerQuery : String) : Bool :=
  match item with
  | Sum.inl i =>
    [i.Name, i.Sources, i.formattedDate].any fun v => strIncludes (jsToLower v) lowerQuery
  | Sum.inr e =>
    [e.Name, e.Categories, e.Expenses, e.Notes, e.formattedDate].any fun v =>
      strIncludes (jsToLower v) lowerQuery

/-- `searchData`: keep the records with some string field containing the
lower-cased query. -/
def searchData (data : List (IncomeData ⊕ ExpenseData)) (query : String) :
    List (IncomeData ⊕ ExpenseData) :=
  let lowerQuery := jsToLower query
  data.filter fun item => recordMatches item lowerQuery

/-! `src/utils/finance/processors.ts` -/

structure CatAmount where
  category : String
  amount : ℚ
deriving DecidableEq, Repr

/-- Comparator order of `.sort((a, b) => b.amount - a.amount)`. -/
def catDesc (a b : CatAmount) : Prop := b.amount ≤ a.amount

instance : DecidableRel catDesc := fun a b => inferInstanceAs (Decidable (b.amount ≤ a.amount))

/-- Comparator order of `.sort((a, b) => b.Amount - a.Amount)` on income. -/
def incomeDesc (a b : IncomeData) : Prop := b.Amount ≤ a.Amount

instance : DecidableRel incomeDesc := fun a b => inferInstanceAs (Decidable (b.Amount ≤ a.Amount))

/-- Comparator order of `.sort((a, b) => b.Amount - a.Amount)` on expenses. -/
def expenseDesc (a b : ExpenseData) : Prop := b.Amount ≤ a.Amount

instance : DecidableRel expenseDesc := fun a b => inferInstanceAs (Decidable (b.Amount ≤ a.Amount))

/-- `getTopSpendingCategories`: entries of the category grouping, sorted
descending by amount (stable), truncated to `limit`. -/
def getTopSpendingCategories (expenseData : List ExpenseData) (limit : Nat := 5) :
    List CatAmount :=
  let categoriesMap := groupExpensesByCategory expenseData
  (List.insertionSort catDesc (categoriesMap.map fun p => CatAmount.mk p.1 p.2)).take limit

structure CashFlowPoint where
  date : String
  cashFlow : ℚ
deriving DecidableEq, Repr

/-- `getCashFlowData`: month buckets of both collections, the union of keys
deduplicated by a `Set` and sorted by the DEFAULT `sort()` — i.e. by
lexicographic string comparison of the `"YYYY-M"` keys — then
`income - expenses` per bucket. -/
def getCashFlowData (incomeData : List IncomeData) (expenseData : List ExpenseData) :
    List CashFlowPoint :=
  let incomeByMonth := groupByMonth (incomeData.map Sum.inl)
  let expensesByMonth := groupByMonth (expenseData.map Sum.inr)
  let allMonths :=
    List.insertionSort strLe (dedupFirst (objKeys incomeByMonth ++ objKeys expensesByMonth))
  allMonths.map fun m =>
    { date := m, cashFlow := lookupD incomeByMonth m - lookupD expensesByMonth m }

structure YearRow where
  year : Nat
  income : ℚ
  expenses : ℚ
deriving DecidableEq, Repr

/-- `Object.keys` on a number-keyed JS object enumerates the integer-like
keys in ascending numeric order. -/
def keysAscNum (m : List (Nat × ℚ)) : List Nat :=
  List.insertionSort (fun a b => a ≤ b) (objKeys m)

/-- `item.year || new Date().getFullYear()`: a falsy (0 or absent) year falls
back to the current year, passed explicitly. -/
def effYear (currentYear : Nat) (y : Nat) : Nat :=
  if y = 0 then currentYear else y

/-- `getYearlySummary`: per-year buckets of both collections, union of years
via a `Set`, sorted by the DEFAULT `sort()` — which compares the numbers as
strings — then one row per year with `|| 0` defaults. -/
def getYearlySummary (currentYear : Nat) (incomeData : List IncomeData)
    (expenseData : List ExpenseData) : List YearRow :=
  let incomeByYear :=
    incomeData.foldl
      (fun grouped item => updAdd grouped (effYear currentYear item.year) item.Amount) []
  let expensesByYear :=
    expenseData.foldl
      (fun grouped item => updAdd grouped (effYear currentYear item.year) item.Amount) []
  let allYears :=
    List.insertionSort numStrLe
      (dedupFirst (keysAscNum incomeByYear ++ keysAscNum expensesByYear))
  allYears.map fun year =>
    { year := year, income := lookupD incomeByYear year, expenses := lookupD expensesByYear year }

/-! Heap model for the mutation claims: JS arrays are references into a store
of lists; spreading allocates a fresh reference, `sort` writes through a
reference in place, `slice` copies. -/

abbrev Heap (α : Type) : Type := List (List α)

def readRef {α : Type} (h : Heap α) (r : Nat) : List α := h.getD r []

def writeRef {α : Type} (h : Heap α) (r : Nat) (xs : List α) : Heap α := h.set r xs

def allocRef {α : Type} (h : Heap α) (xs : List α) : Heap α × Nat := (h ++ [xs], h.length)

structure NotableOut where
  heapIncome : Heap IncomeData
  heapExpense : Heap ExpenseData
  topIncome : List IncomeData
  topExpenses : List ExpenseData
  refIncomeCopy : Nat
  refExpenseCopy : Nat

/-- `getNotableTransactions` with the array store explicit:
`[...incomeData]` allocates a fresh copy, `.sort((a, b) => b.Amount -
a.Amount)` mutates that copy in place, `.slice(0, limit)` copies out. -/
def getNotableTransactionsH (hI : Heap IncomeData) (rI : Nat) (hE : Heap ExpenseData)
    (rE : Nat) (limit : Nat := 5) : NotableOut :=
  let incomeData := readRef hI rI
  let aI := allocRef hI incomeData
  let hI2 := writeRef aI.1 aI.2 (List.insertionSort incomeDesc (readRef aI.1 aI.2))
  let topIncome := (readRef hI2 aI.2).take limit
  let expenseData := readRef hE rE
  let aE := allocRef hE expenseData
  let hE2 := writeRef aE.1 aE.2 (List.insertionSort expenseDesc (readRef aE.1 aE.2))
  let topExpenses := (readRef hE2 aE.2).take limit
  ⟨hI2, hE2, topIncome, topExpenses, aI.2, aE.2⟩

structure TopCatsOut where
  heapExpense : Heap ExpenseData
  heapEntries : Heap CatAmount
  result : List CatAmount
  refEntries : Nat

/-- `getTopSpendingCategories` with the array store explicit: the input
array is only read (by the grouping `reduce`); `Object.entries(...).map`
builds a fresh array, `.sort` mutates only that fresh array, `.slice`
copies out. -/
def getTopSpendingCategoriesH (h : Heap ExpenseData) (r : Nat) (hC : Heap CatAmount)
    (limit : Nat := 5) : TopCatsOut :=
  let expenseData := readRef h r
  let categoriesMap := groupExpensesByCategory expenseData
  let entries := categoriesMap.map fun p => CatAmount.mk p.1 p.2
  let aC := allocRef hC entries
  let hC2 := writeRef aC.1 aC.2 (List.insertionSort catDesc (readRef aC.1 aC.2))
  let result := (readRef hC2 aC.2).take limit
  ⟨h, hC2, result, aC.2⟩

end Finance

namespace Report

/-! The numeric strings of `generateReport` (`src/utils/reportGenerator.ts`).
Only the arithmetic/rendering of the report is modelled, not the PDF layout. -/

/-- A JS number: finite, `NaN`, or a signed infinity. -/
inductive JsNum where
  | num (q : ℚ)
  | nan
  | inf
  | ninf
deriving DecidableEq, Repr

/-- JS division: `0/0` is `NaN`, `x/0` for `x ≠ 0` is a signed infinity. -/
def jsDivNum (a b : ℚ) : JsNum :=
  if b = 0 then
    if a = 0 then JsNum.nan else if 0 < a then JsNum.inf else JsNum.ninf
  else JsNum.num (a / b)

/-- Multiplication of a JS number by a finite positive constant. -/
def jsMulNum (x : JsNum) (c : ℚ) : JsNum :=
  match x with
  | JsNum.num q => JsNum.num (q * c)
  | JsNum.nan => JsNum.nan
  | JsNum.inf => JsNum.inf
  | JsNum.ninf => JsNum.ninf

/-- Decimal rendering of `toFixed(1)` on a finite value (simplified: rounds
the exact rational half away from zero, ignoring binary-double artifacts;
the claims depend only on the non-finite branches). -/
def renderFixed1 (q : ℚ) : String :=
  let n : Int := if q < 0 then -round (-q * 10) else round (q * 10)
  (if n < 0 then "-" else "") ++
    natToString (n.natAbs / 10) ++ "." ++ natToString (n.natAbs % 10)

/-- `(...).toFixed(1)`: `NaN.toFixed(1) = "NaN"`, `Infinity.toFixed(1) =
"Infinity"`. -/
def jsToFixed1 (x : JsNum) : String :=
  match x with
  | JsNum.num q => renderFixed1 q
  | JsNum.nan => "NaN"
  | JsNum.inf => "Infinity"
  | JsNum.ninf => "-Infinity"

/-- `formatCurrency`: `Intl.NumberFormat('en-IN', { style: 'currency',
currency: 'INR', maximumFractionDigits: 0 })` (simplified: rupee sign and
rounded integer, without the Indian digit grouping the claims never
exercise). -/
def formatCurrency (amount : ℚ) : String :=
  "₹" ++ intToString (round amount)

/-- The summary line `Savings Rate: ${totalIncome > 0 ? ((netSavings /
totalIncome) * 100).toFixed(1) + '%' : 'N/A'}`. -/
def savingsRateText (incomeData : List IncomeData) (expenseData : List ExpenseData) : String :=
  let totalIncome := Finance.calculateTotalIncome incomeData
  let totalExpenses := Finance.calculateTotalExpenses expenseData
  let netSavings := Finance.calculateNetSavings totalIncome totalExpenses
  if 0 < totalIncome then
    jsToFixed1 (jsMulNum (jsDivNum netSavings totalIncome) 100) ++ "%"
  else "N/A"

/-- The rows of the top-spending-categories table:
`[`${index + 1}. ${cat.category}`, formatCurrency(cat.amount),
`${((cat.amount / totalExpenses) * 100).toFixed(1)}%`]`.  The percentage
divides by `totalExpenses` without any zero guard. -/
def topCategoriesRows (expenseData : List ExpenseData) : List (List String) :=
  let totalExpenses := Finance.calculateTotalExpenses expenseData
  let topCategories := Finance.getTopSpendingCategories expenseData 5
  topCategories.enum.map fun p =>
    [natToString (p.1 + 1) ++ ". " ++ p.2.category,
     formatCurrency p.2.amount,
     jsToFixed1 (jsMulNum (jsDivNum p.2.amount totalExpenses) 100) ++ "%"]

end Report

/-! ### Shared helper lemmas -/

theorem foldl_add_eq {α : Type} (f : α → ℚ) :
    ∀ (l : List α) (a : ℚ), l.foldl (fun t x => t + f x) a = a + sumBy f l := by
  intro l
  induction l with
  | nil => intro a; simp [sumBy]
  | cons x l ih =>
    intro a
    simp only [List.foldl_cons]
    rw [ih]
    simp [sumBy]
    ring

theorem isInfB_nil (l : List Char) : Finance.isInfB [] l = true := by
  cases l <;> simp [Finance.isInfB, Finance.isPrefB]

theorem not_mem_trimS {s : String} {c : Char} (h : c ∉ s.data) : c ∉ (trimS s).data :=
  fun hc => h (mem_trimChars hc)

theorem trimS_trimS (s : String) : trimS (trimS s) = trimS s :=
  congrArg String.mk (trimChars_idem s.data)

theorem cleanFH_eq_trimS (s : String) (h1 : '[' ∉ s.data) (h2 : '%' ∉ s.data) :
    FinanceHelpers.cleanMarkdownLinks s = trimS s := by
  unfold FinanceHelpers.cleanMarkdownLinks
  by_cases hs : s = ""
  · subst hs; rfl
  · rw [if_neg hs]
    show trimS ⟨replace2 (trimS ⟨replace1 s.data⟩).data⟩ = trimS s
    rw [replace1_no_bracket s.data h1]
    have h2' : '%' ∉ (trimS s).data := not_mem_trimS h2
    show trimS ⟨replace2 (trimS s).data⟩ = trimS s
    rw [replace2_no_percent (trimS s).data h2']
    exact trimS_trimS s

theorem cleanDP_eq_trimS (s : String) (h1 : '[' ∉ s.data) :
    DataProcessing.cleanMarkdownLinks s = trimS s := by
  unfold DataProcessing.cleanMarkdownLinks
  by_cases hs : s = ""
  · subst hs; rfl
  · rw [if_neg hs, replace1_no_bracket s.data h1]

namespace Finance

theorem readRef_append_self {α : Type} (h : Heap α) (xs : List α) :
    readRef (h ++ [xs]) h.length = xs := by
  induction h with
  | nil => rfl
  | cons a h ih => simp only [List.cons_append, List.length_cons, readRef, List.getD,
      List.get?_cons_succ] at ih ⊢; exact ih

theorem readRef_own_length {α : Type} (h : Heap α) : readRef h h.length = [] :=
  List.getD_eq_default _ _ (le_refl _)

theorem readRef_alloc_write {α : Type} (h : Heap α) (xs ys : List α) (r : Nat) :
    readRef (writeRef (h ++ [xs]) h.length ys) r =
      if r = h.length then ys else readRef h r := by
  induction h generalizing r with
  | nil =>
    cases r with
    | zero => rfl
    | succ r => simp [readRef, writeRef, List.getD]
  | cons a h ih =>
    cases r with
    | zero => simp [readRef, writeRef, List.getD]
    | succ r =>
      have hstep := ih r
      simp only [readRef, writeRef, List.getD] at hstep ⊢
      simp only [List.cons_append, List.length_cons, List.set_cons_succ, List.get?_cons_succ]
      rw [hstep]
      exact if_congr (by omega) rfl rfl

end Finance

/-! ### Claim theorems -/

section ConcreteEvaluation

/-! Batteries marks the rational arithmetic operations `@[irreducible]`,
which blocks `decide` on closed goals; restore default reducibility locally
so closed evaluations reduce. -/

attribute [local semireducible] Rat.add Rat.sub Rat.mul Rat.inv Rat.ofScientific

/-- C1: `getCashFlowData` does return one entry per month bucket with
`income - expenses`, but it orders the entries by the default lexicographic
string sort of the `"YYYY-M"` keys, not by the decomposed numeric
`(year, monthNumber)` pair: with buckets for Feb-2023 and Dec-2023 it emits
`"2023-12"` before `"2023-2"`. -/
theorem getCashFlowData_lexicographic_not_chronological :
    Finance.getCashFlowData
        [{ Name := "A", Sources := "S", Amount := 100, Date := ⟨2023, 1⟩,
           formattedDate := "", month := 1, year := 2023 },
         { Name := "B", Sources := "S", Amount := 200, Date := ⟨2023, 11⟩,
           formattedDate := "", month := 11, year := 2023 }] [] =
      [{ date := "2023-12", cashFlow := 200 }, { date := "2023-2", cashFlow := 100 }] := by
  decide

/-- C2 (counterexample): a raw income row whose `Amount` cell is `"-5"`
normalizes to the negative amount `-5`, so `Amount ≥ 0` does not hold for
every row. -/
theorem processIncomeData_negative_amount_counterexample :
    ¬ (∀ rec ∈ DataProcessing.processIncomeData (fun _ => ⟨2024, 0⟩) (fun _ => "")
          [{ Name := "A", Sources := "", Amount := "-5", Date := "" }],
        0 ≤ rec.Amount) := by
  decide

/-- C2 (amended): the normalized `Amount` is exactly `parseCurrency` of the
raw cell; non-numeric input (no parsable numeric prefix after
symbol/comma stripping) coerces to `0`, and the result is non-negative
whenever the parsed value is non-negative — but a negative numeric cell
passes through as a negative amount. -/
theorem parseCurrency_amount_amended :
    ∀ s : String,
      (jsParseFloat (DataProcessing.stripAmount s) = none →
        DataProcessing.parseCurrency s = 0) ∧
      (∀ v : ℚ, jsParseFloat (DataProcessing.stripAmount s) = some v → 0 ≤ v →
        0 ≤ DataProcessing.parseCurrency s) ∧
      (∀ (pd : String → JSDate) (fd : JSDate → String) (row : RawIncomeRow),
        (DataProcessing.normalizeIncomeRow pd fd row).Amount =
          DataProcessing.parseCurrency row.Amount) ∧
      (∀ (pd : String → JSDate) (fd : JSDate → String) (row : RawExpenseRow),
        (DataProcessing.normalizeExpenseRow pd fd row).Amount =
          DataProcessing.parseCurrency row.Amount) := by
  intro s
  refine ⟨?_, ?_, ?_, ?_⟩
  · intro h
    unfold DataProcessing.parseCurrency
    by_cases hs : s = ""
    · simp [hs]
    · simp [hs, h]
  · intro v hv h0
    unfold DataProcessing.parseCurrency
    by_cases hs : s = ""
    · simp [hs]
    · simp only [hs, if_false, hv]
      exact h0
  · intro pd fd row; rfl
  · intro pd fd row; rfl

theorem parseCurrency_amount_amended_witness :
    DataProcessing.parseCurrency "abc" = 0 ∧ 0 ≤ DataProcessing.parseCurrency "7" :=
  ⟨(parseCurrency_amount_amended "abc").1 (by decide),
   (parseCurrency_amount_amended "7").2.1 7 (by decide) (by decide)⟩

/-- C3: the savings-rate line is guarded (`'N/A'` when total income is 0),
but the category-share column of the top-spending-categories table divides
by total expenses with no guard: a single zero-amount expense row renders
the user-visible cell `"NaN%"`. -/
theorem generateReport_category_percent_NaN :
    Report.topCategoriesRows
        [{ Name := "X", Categories := "Food", Amount := 0, Date := ⟨2024, 0⟩,
           Expenses := "", Notes := "", formattedDate := "", month := 0, year := 2024 }] =
      [["1. Food", "₹0", "NaN%"]] ∧
    Report.savingsRateText []
        [{ Name := "X", Categories := "Food", Amount := 0, Date := ⟨2024, 0⟩,
           Expenses := "", Notes := "", formattedDate := "", month := 0, year := 2024 }] =
      "N/A" := by
  constructor <;> decide

/-- C4: the normalizers are plain `map`s: one output record per input row,
in order, whatever the parsing functions do — the output length equals the
input length and the i-th output is the normalization of the i-th row. -/
theorem processData_one_record_per_row :
    ∀ (pd : String → JSDate) (fd : JSDate → String) (rows : List RawIncomeRow)
      (erows : List RawExpenseRow),
      (DataProcessing.processIncomeData pd fd rows).length = rows.length ∧
      (DataProcessing.processExpenseData pd fd erows).length = erows.length ∧
      (∀ i : Nat, (DataProcessing.processIncomeData pd fd rows)[i]? =
        (rows[i]?).map (DataProcessing.normalizeIncomeRow pd fd)) ∧
      (∀ i : Nat, (DataProcessing.processExpenseData pd fd erows)[i]? =
        (erows[i]?).map (DataProcessing.normalizeExpenseRow pd fd)) := by
  intro pd fd rows erows
  refine ⟨?_, ?_, ?_, ?_⟩
  · simp [DataProcessing.processIncomeData]
  · simp [DataProcessing.processExpenseData]
  · intro i
    exact List.getElem?_map (DataProcessing.normalizeIncomeRow pd fd) rows i
  · intro i
    exact List.getElem?_map (DataProcessing.normalizeExpenseRow pd fd) erows i

/-- C10: with the empty query, the lower-cased query is the empty string,
which is a substring of every string field (every record has string fields,
e.g. `Name`), so `searchData` keeps every record: it returns the collection
unchanged. -/
theorem searchData_empty_query :
    ∀ data : List (IncomeData ⊕ ExpenseData), Finance.searchData data "" = data := by
  intro data
  unfold Finance.searchData
  have hmatch : ∀ item, Finance.recordMatches item (Finance.jsToLower "") = true := by
    intro item
    cases item with
    | inl i =>
      simp only [Finance.recordMatches, List.any_cons, Finance.strIncludes]
      rw [show (Finance.jsToLower "").data = [] from rfl]
      simp [isInfB_nil]
    | inr e =>
      simp only [Finance.recordMatches, List.any_cons, Finance.strIncludes]
      rw [show (Finance.jsToLower "").data = [] from rfl]
      simp [isInfB_nil]
  calc data.filter (fun item => Finance.recordMatches item (Finance.jsToLower ""))
      = data.filter (fun _ => true) := List.filter_congr (fun x _ => hmatch x)
    _ = data := List.filter_true data

/-- C5 (counterexample): a record with an empty category buckets under the
fallback key `"Uncategorized"`, but `filterExpensesByCategory` matches the
literal string only: filtering by `"Uncategorized"` misses the record, so
the round-trip sum (0) differs from the bucket value (5). -/
theorem filterGroup_roundtrip_counterexample :
    objLookup (Finance.groupExpensesByCategory
        [{ Name := "N", Categories := "", Amount := 5, Date := ⟨2024, 0⟩,
           Expenses := "", Notes := "", formattedDate := "", month := 0, year := 2024 }])
      "Uncategorized" = some 5 ∧
    sumBy (fun e => e.Amount) (Finance.filterExpensesByCategory
        [{ Name := "N", Categories := "", Amount := 5, Date := ⟨2024, 0⟩,
           Expenses := "", Notes := "", formattedDate := "", month := 0, year := 2024 }]
      "Uncategorized") ≠ 5 := by
  constructor <;> decide

/-- C5 (amended): for every category key other than the fallback key
`"Uncategorized"` appearing in the grouping result, filtering by that
category and summing equals the bucket value.  (For the fallback key itself
the round-trip can miss records with an empty category, as the
counterexample shows.) -/
theorem filterGroup_roundtrip_amended :
    ∀ (expenseData : List ExpenseData) (category : String) (v : ℚ),
      category ≠ "Uncategorized" →
      objLookup (Finance.groupExpensesByCategory expenseData) category = some v →
      sumBy (fun e => e.Amount)
        (Finance.filterExpensesByCategory expenseData category) = v := by
  intro l c v hc hv
  have hD : lookupD (Finance.groupExpensesByCategory l) c = v :=
    objLookup_eq_some_lookupD _ _ _ hv
  have hk : c ∈ objKeys (Finance.groupExpensesByCategory l) :=
    objLookup_mem_keys _ _ _ hv
  have hmem : c ∈ objKeys ([] : List (String × ℚ)) ∨ ∃ x ∈ l,
      (if x.Categories = "" then "Uncategorized" else x.Categories) = c :=
    (mem_keys_foldl
      (fun item : ExpenseData =>
        if item.Categories = "" then "Uncategorized" else item.Categories)
      (fun item => item.Amount) l [] c).mp hk
  obtain ⟨x, hxl, hxk⟩ := hmem.resolve_left (by simp [objKeys])
  have hcne : c ≠ "" := by
    intro h0
    subst h0
    by_cases hcat : x.Categories = ""
    · rw [if_pos hcat] at hxk
      simp at hxk
    · rw [if_neg hcat] at hxk
      exact hcat hxk
  have hfeq : (l.filter fun x =>
        decide ((if x.Categories = "" then "Uncategorized" else x.Categories) = c)) =
      l.filter (fun item => decide (item.Categories = c)) := by
    apply List.filter_congr
    intro y _
    by_cases hcat : y.Categories = ""
    · simp [hcat, Ne.symm hc, Ne.symm hcne]
    · simp [hcat]
  have hsum : lookupD (Finance.groupExpensesByCategory l) c =
      lookupD ([] : List (String × ℚ)) c + sumBy (fun item : ExpenseData => item.Amount)
        (l.filter fun x =>
          decide ((if x.Categories = "" then "Uncategorized" else x.Categories) = c)) :=
    lookupD_foldl
      (fun item : ExpenseData =>
        if item.Categories = "" then "Uncategorized" else item.Categories)
      (fun item => item.Amount) l [] c
  rw [hD, hfeq] at hsum
  show sumBy (fun e => e.Amount) (l.filter fun item => decide (item.Categories = c)) = v
  rw [show lookupD ([] : List (String × ℚ)) c = 0 from rfl] at hsum
  linarith [hsum]

theorem filterGroup_roundtrip_amended_witness :
    sumBy (fun e => e.Amount) (Finance.filterExpensesByCategory
        [{ Name := "N", Categories := "Food", Amount := 7, Date := ⟨2024, 0⟩,
           Expenses := "", Notes := "", formattedDate := "", month := 0, year := 2024 }]
      "Food") = 7 :=
  filterGroup_roundtrip_amended
    [{ Name := "N", Categories := "Food", Amount := 7, Date := ⟨2024, 0⟩,
       Expenses := "", Notes := "", formattedDate := "", month := 0, year := 2024 }]
    "Food" 7 (by decide) (by decide)

/-- C6: the sum of all bucket values of the categorical groupings equals
the corresponding total of the input collection, and every key of a
grouping has at least one contributing record. -/
theorem grouping_conserves_total :
    ∀ (expenseData : List ExpenseData) (incomeData : List IncomeData),
      sumVals (Finance.groupExpensesByCategory expenseData) =
        Finance.calculateTotalExpenses expenseData ∧
      sumVals (Finance.groupIncomeBySource incomeData) =
        Finance.calculateTotalIncome incomeData ∧
      (∀ k ∈ objKeys (Finance.groupExpensesByCategory expenseData),
        ∃ e ∈ expenseData, (if e.Categories = "" then "Uncategorized" else e.Categories) = k) ∧
      (∀ k ∈ objKeys (Finance.groupIncomeBySource incomeData),
        ∃ i ∈ incomeData, (if i.Sources = "" then "Uncategorized" else i.Sources) = k) := by
  intro l li
  refine ⟨?_, ?_, ?_, ?_⟩
  · have h1 : sumVals (Finance.groupExpensesByCategory l) =
        sumVals ([] : List (String × ℚ)) + sumBy (fun item : ExpenseData => item.Amount) l :=
      sumVals_foldl
        (fun item : ExpenseData =>
          if item.Categories = "" then "Uncategorized" else item.Categories)
        (fun item => item.Amount) l []
    have h2 : Finance.calculateTotalExpenses l =
        0 + sumBy (fun item : ExpenseData => item.Amount) l :=
      foldl_add_eq (fun item : ExpenseData => item.Amount) l 0
    rw [h1, h2]
    norm_num [sumVals]
  · have h1 : sumVals (Finance.groupIncomeBySource li) =
        sumVals ([] : List (String × ℚ)) + sumBy (fun item : IncomeData => item.Amount) li :=
      sumVals_foldl
        (fun item : IncomeData =>
          if item.Sources = "" then "Uncategorized" else item.Sources)
        (fun item => item.Amount) li []
    have h2 : Finance.calculateTotalIncome li =
        0 + sumBy (fun item : IncomeData => item.Amount) li :=
      foldl_add_eq (fun item : IncomeData => item.Amount) li 0
    rw [h1, h2]
    norm_num [sumVals]
  · intro k hk
    have hmem : k ∈ objKeys ([] : List (String × ℚ)) ∨ ∃ x ∈ l,
        (if x.Categories = "" then "Uncategorized" else x.Categories) = k :=
      (mem_keys_foldl
        (fun item : ExpenseData =>
          if item.Categories = "" then "Uncategorized" else item.Categories)
        (fun item => item.Amount) l [] k).mp hk
    exact hmem.resolve_left (by simp [objKeys])
  · intro k hk
    have hmem : k ∈ objKeys ([] : List (String × ℚ)) ∨ ∃ x ∈ li,
        (if x.Sources = "" then "Uncategorized" else x.Sources) = k :=
      (mem_keys_foldl
        (fun item : IncomeData =>
          if item.Sources = "" then "Uncategorized" else item.Sources)
        (fun item => item.Amount) li [] k).mp hk
    exact hmem.resolve_left (by simp [objKeys])

theorem grouping_conserves_total_witness :
    ∃ e ∈ [{ Name := "N", Categories := "Food", Amount := 7, Date := (⟨2024, 0⟩ : JSDate),
             Expenses := "", Notes := "", formattedDate := "", month := 0,
             year := 2024 : ExpenseData }],
      (if e.Categories = "" then "Uncategorized" else e.Categories) = "Food" :=
  (grouping_conserves_total
      [{ Name := "N", Categories := "Food", Amount := 7, Date := ⟨2024, 0⟩,
         Expenses := "", Notes := "", formattedDate := "", month := 0, year := 2024 }]
      []).2.2.1 "Food" (by decide)

/-- C7 (counterexample): `cleanMarkdownLinks` is not idempotent — in either
of its two implementations.  For the input `"[[a](b)](c)"` one pass yields
`"[a](c)"` (the link regex consumed the inner brackets) and a second pass
yields `"a"`. -/
theorem cleanMarkdownLinks_not_idempotent :
    FinanceHelpers.cleanMarkdownLinks (FinanceHelpers.cleanMarkdownLinks "[[a](b)](c)") ≠
      FinanceHelpers.cleanMarkdownLinks "[[a](b)](c)" ∧
    DataProcessing.cleanMarkdownLinks (DataProcessing.cleanMarkdownLinks "[[a](b)](c)") ≠
      DataProcessing.cleanMarkdownLinks "[[a](b)](c)" := by
  constructor <;> decide

/-- C7 (amended): on inputs containing no `'['` (so the link regex cannot
match) and no `'%'` (so the parenthetical-annotation regex cannot match),
both implementations of `cleanMarkdownLinks` reduce to `trim` and are
idempotent; on general inputs idempotence fails (see the counterexample). -/
theorem cleanMarkdownLinks_idempotent_amended :
    ∀ s : String, '[' ∉ s.data → '%' ∉ s.data →
      FinanceHelpers.cleanMarkdownLinks (FinanceHelpers.cleanMarkdownLinks s) =
        FinanceHelpers.cleanMarkdownLinks s ∧
      DataProcessing.cleanMarkdownLinks (DataProcessing.cleanMarkdownLinks s) =
        DataProcessing.cleanMarkdownLinks s := by
  intro s h1 h2
  constructor
  · rw [cleanFH_eq_trimS s h1 h2,
        cleanFH_eq_trimS (trimS s) (not_mem_trimS h1) (not_mem_trimS h2)]
    exact trimS_trimS s
  · rw [cleanDP_eq_trimS s h1,
        cleanDP_eq_trimS (trimS s) (not_mem_trimS h1)]
    exact trimS_trimS s

theorem cleanMarkdownLinks_idempotent_amended_witness :
    FinanceHelpers.cleanMarkdownLinks (FinanceHelpers.cleanMarkdownLinks " hi there ") =
      FinanceHelpers.cleanMarkdownLinks " hi there " ∧
    DataProcessing.cleanMarkdownLinks (DataProcessing.cleanMarkdownLinks " hi there ") =
      DataProcessing.cleanMarkdownLinks " hi there " :=
  cleanMarkdownLinks_idempotent_amended " hi there " (by decide) (by decide)

/-- C8 (counterexample): `getYearlySummary` sorts the union of years with
the default `sort()`, which compares the numbers as strings: with years 999
and 1000 it returns the year-1000 row before the year-999 row, so the rows
are not ascending by year. -/
theorem getYearlySummary_sort_counterexample :
    Finance.getYearlySummary 2025
        [{ Name := "I", Sources := "", Amount := 10, Date := ⟨999, 0⟩,
           formattedDate := "", month := 0, year := 999 }]
        [{ Name := "E", Categories := "C", Amount := 20, Date := ⟨1000, 0⟩,
           Expenses := "", Notes := "", formattedDate := "", month := 0, year := 1000 }] =
      [{ year := 1000, income := 0, expenses := 20 },
       { year := 999, income := 10, expenses := 0 }] ∧
    ¬ ((Finance.getYearlySummary 2025
        [{ Name := "I", Sources := "", Amount := 10, Date := ⟨999, 0⟩,
           formattedDate := "", month := 0, year := 999 }]
        [{ Name := "E", Categories := "C", Amount := 20, Date := ⟨1000, 0⟩,
           Expenses := "", Notes := "", formattedDate := "", month := 0,
           year := 1000 }]).map (fun r => r.year)).Pairwise (fun a b => a ≤ b) := by
  constructor <;> decide

/-- C8 (amended): `getYearlySummary` returns one row per year in the union
of (fallback-adjusted) years present in either collection, with each row
summing the matching-year amounts; the rows are ordered by decimal-string
comparison of the year, which coincides with ascending numeric order
whenever all years are four-digit — in particular the spec's concrete
example holds — but not in general (see the counterexample). -/
theorem getYearlySummary_amended :
    ∀ (currentYear : Nat) (incomeData : List IncomeData) (expenseData : List ExpenseData),
      (∀ row ∈ Finance.getYearlySummary currentYear incomeData expenseData,
        row.income = sumBy (fun i => i.Amount)
            (incomeData.filter fun i =>
              decide (Finance.effYear currentYear i.year = row.year)) ∧
        row.expenses = sumBy (fun e => e.Amount)
            (expenseData.filter fun e =>
              decide (Finance.effYear currentYear e.year = row.year))) ∧
      ((Finance.getYearlySummary currentYear incomeData expenseData).map
        (fun r => r.year)).Nodup ∧
      (∀ y : Nat,
        y ∈ (Finance.getYearlySummary currentYear incomeData expenseData).map
            (fun r => r.year) ↔
          (∃ i ∈ incomeData, Finance.effYear currentYear i.year = y) ∨
          (∃ e ∈ expenseData, Finance.effYear currentYear e.year = y)) ∧
      ((∀ y ∈ (Finance.getYearlySummary currentYear incomeData expenseData).map
            (fun r => r.year), 1000 ≤ y ∧ y ≤ 9999) →
        ((Finance.getYearlySummary currentYear incomeData expenseData).map
          (fun r => r.year)).Pairwise (fun a b => a ≤ b)) ∧
      Finance.getYearlySummary 2025
          [{ Name := "I", Sources := "", Amount := 1000, Date := ⟨2023, 0⟩,
             formattedDate := "", month := 0, year := 2023 }]
          [{ Name := "E1", Categories := "C", Amount := 400, Date := ⟨2023, 0⟩,
             Expenses := "", Notes := "", formattedDate := "", month := 0, year := 2023 },
           { Name := "E2", Categories := "C", Amount := 100, Date := ⟨2024, 0⟩,
             Expenses := "", Notes := "", formattedDate := "", month := 0, year := 2024 }] =
        [{ year := 2023, income := 1000, expenses := 400 },
         { year := 2024, income := 0, expenses := 100 }] := by
  intro cy inc exp
  have hmap : (Finance.getYearlySummary cy inc exp).map (fun r => r.year) =
      List.insertionSort numStrLe
        (dedupFirst
          (Finance.keysAscNum
              (inc.foldl
                (fun grouped item =>
                  updAdd grouped (Finance.effYear cy item.year) item.Amount) []) ++
            Finance.keysAscNum
              (exp.foldl
                (fun grouped item =>
                  updAdd grouped (Finance.effYear cy item.year) item.Amount) []))) := by
    simp only [Finance.getYearlySummary, List.map_map]
    exact List.map_id'' (fun y => rfl) _
  refine ⟨?_, ?_, ?_, ?_, by decide⟩
  · intro row hrow
    simp only [Finance.getYearlySummary, List.mem_map] at hrow
    obtain ⟨y, hy, hf⟩ := hrow
    rw [← hf]
    constructor
    · show lookupD
          (inc.foldl
            (fun grouped item => updAdd grouped (Finance.effYear cy item.year) item.Amount)
            []) y = _
      have h := lookupD_foldl (fun item : IncomeData => Finance.effYear cy item.year)
        (fun item => item.Amount) inc [] y
      rw [show lookupD ([] : List (Nat × ℚ)) y = 0 from rfl, zero_add] at h
      exact h
    · show lookupD
          (exp.foldl
            (fun grouped item => updAdd grouped (Finance.effYear cy item.year) item.Amount)
            []) y = _
      have h := lookupD_foldl (fun item : ExpenseData => Finance.effYear cy item.year)
        (fun item => item.Amount) exp [] y
      rw [show lookupD ([] : List (Nat × ℚ)) y = 0 from rfl, zero_add] at h
      exact h
  · rw [hmap]
    exact (List.perm_insertionSort numStrLe _).symm.nodup (nodup_dedupFirst _)
  · intro y
    rw [hmap, List.Perm.mem_iff (List.perm_insertionSort numStrLe _), mem_dedupFirst,
      List.mem_append]
    have hkI : y ∈ Finance.keysAscNum
        (inc.foldl
          (fun grouped item => updAdd grouped (Finance.effYear cy item.year) item.Amount)
          []) ↔ ∃ i ∈ inc, Finance.effYear cy i.year = y := by
      unfold Finance.keysAscNum
      rw [List.Perm.mem_iff (List.perm_insertionSort _ _)]
      have h := mem_keys_foldl (fun item : IncomeData => Finance.effYear cy item.year)
        (fun item => item.Amount) inc [] y
      simpa [objKeys] using h
    have hkE : y ∈ Finance.keysAscNum
        (exp.foldl
          (fun grouped item => updAdd grouped (Finance.effYear cy item.year) item.Amount)
          []) ↔ ∃ e ∈ exp, Finance.effYear cy e.year = y := by
      unfold Finance.keysAscNum
      rw [List.Perm.mem_iff (List.perm_insertionSort _ _)]
      have h := mem_keys_foldl (fun item : ExpenseData => Finance.effYear cy item.year)
        (fun item => item.Amount) exp [] y
      simpa [objKeys] using h
    rw [hkI, hkE]
  · intro hbound
    rw [hmap] at hbound ⊢
    have hsorted := List.sorted_insertionSort numStrLe
      (dedupFirst
        (Finance.keysAscNum
            (inc.foldl
              (fun grouped item =>
                updAdd grouped (Finance.effYear cy item.year) item.Amount) []) ++
          Finance.keysAscNum
            (exp.foldl
              (fun grouped item =>
                updAdd grouped (Finance.effYear cy item.year) item.Amount) [])))
    refine List.Pairwise.imp_of_mem ?_ hsorted
    intro a b ha hb hab
    exact (numStrLe_iff_le a b (hbound a ha).1 (hbound a ha).2
      (hbound b hb).1 (hbound b hb).2).mp hab

theorem getYearlySummary_amended_witness :
    ((Finance.getYearlySummary 2025
        [{ Name := "I", Sources := "", Amount := 1000, Date := ⟨2023, 0⟩,
           formattedDate := "", month := 0, year := 2023 }]
        [{ Name := "E1", Categories := "C", Amount := 400, Date := ⟨2023, 0⟩,
           Expenses := "", Notes := "", formattedDate := "", month := 0, year := 2023 },
         { Name := "E2", Categories := "C", Amount := 100, Date := ⟨2024, 0⟩,
           Expenses := "", Notes := "", formattedDate := "", month := 0,
           year := 2024 }]).map (fun r => r.year)).Pairwise (fun a b => a ≤ b) :=
  (getYearlySummary_amended 2025
      [{ Name := "I", Sources := "", Amount := 1000, Date := ⟨2023, 0⟩,
         formattedDate := "", month := 0, year := 2023 }]
      [{ Name := "E1", Categories := "C", Amount := 400, Date := ⟨2023, 0⟩,
         Expenses := "", Notes := "", formattedDate := "", month := 0, year := 2023 },
       { Name := "E2", Categories := "C", Amount := 100, Date := ⟨2024, 0⟩,
         Expenses := "", Notes := "", formattedDate := "", month := 0,
         year := 2024 }]).2.2.2.1 (by decide)

/-- C9: with the array store explicit, `getNotableTransactions` and
`getTopSpendingCategories` leave the contents of their input array
references unchanged: the sorts mutate only freshly allocated copies, and
the returned collections live at fresh references. -/
theorem aggregations_preserve_inputs :
    ∀ (hI : Finance.Heap IncomeData) (rI : Nat) (hE : Finance.Heap ExpenseData) (rE : Nat)
      (limit : Nat) (h : Finance.Heap ExpenseData) (r : Nat)
      (hC : Finance.Heap Finance.CatAmount),
      Finance.readRef (Finance.getNotableTransactionsH hI rI hE rE limit).heapIncome rI =
        Finance.readRef hI rI ∧
      Finance.readRef (Finance.getNotableTransactionsH hI rI hE rE limit).heapExpense rE =
        Finance.readRef hE rE ∧
      (Finance.getNotableTransactionsH hI rI hE rE limit).refIncomeCopy = hI.length ∧
      (Finance.getNotableTransactionsH hI rI hE rE limit).refExpenseCopy = hE.length ∧
      (Finance.getTopSpendingCategoriesH h r hC limit).heapExpense = h ∧
      (Finance.getTopSpendingCategoriesH h r hC limit).refEntries = hC.length := by
  intro hI rI hE rE limit h r hC
  refine ⟨?_, ?_, rfl, rfl, rfl, rfl⟩
  · show Finance.readRef
        (Finance.writeRef (hI ++ [Finance.readRef hI rI]) hI.length
          (List.insertionSort Finance.incomeDesc
            (Finance.readRef (hI ++ [Finance.readRef hI rI]) hI.length))) rI =
      Finance.readRef hI rI
    rw [Finance.readRef_append_self, Finance.readRef_alloc_write]
    by_cases hr : rI = hI.length
    · subst hr
      rw [if_pos rfl, Finance.readRef_own_length]
      rfl
    · rw [if_neg hr]
  · show Finance.readRef
        (Finance.writeRef (hE ++ [Finance.readRef hE rE]) hE.length
          (List.insertionSort Finance.expenseDesc
            (Finance.readRef (hE ++ [Finance.readRef hE rE]) hE.length))) rE =
      Finance.readRef hE rE
    rw [Finance.readRef_append_self, Finance.readRef_alloc_write]
    by_cases hr : rE = hE.length
    · subst hr
      rw [if_pos rfl, Finance.readRef_own_length]
      rfl
    · rw [if_neg hr]

end ConcreteEvaluation

end FiscalVisuals
